import Mathlib

/-!
Shallow embedding of the persistent key-value store in
`pkg/core/vars/map.go` (type `Map`), together with the helper routines it
calls.  The in-memory Go map `M map[string]string` is modelled as an
association list with distinct keys kept in insertion order (Go's map
iteration order is unspecified; the association-list order is one
admissible order).  The backing file and its modification time are
modelled explicitly, and every public operation is a pure function from
the pair (file, store) to its results.

Helpers from this repository that are not part of the given sources
(`to.Lines`, `to.EscReturns`, `to.UnEscReturns`, `futil.Overwrite`, and
the `NotFound` error type of the `vars` package) are modelled from the
spec; each such definition carries a doc comment saying so.
-/

namespace Vars

/-- Modelled from the spec: `to.EscReturns`, used by `Map.MarshalText`,
escapes carriage-return and line-feed characters of a value to the
two-character sequences backslash-r and backslash-n, "so the overall
format remains strictly line-oriented". All other characters are copied
verbatim. -/
def escReturns : List Char → List Char
  | [] => []
  | c :: cs =>
    if c = '\r' then '\\' :: 'r' :: escReturns cs
    else if c = '\n' then '\\' :: 'n' :: escReturns cs
    else c :: escReturns cs

/-- Modelled from the spec: `to.UnEscReturns`, used by
`Map.UnmarshalText`, performs the symmetric unescaping on load: each
two-character sequence backslash-r (resp. backslash-n) becomes a
carriage return (resp. line feed); everything else is copied. -/
def unescReturns : List Char → List Char
  | [] => []
  | [c] => [c]
  | c :: d :: cs =>
    if c = '\\' ∧ d = 'r' then '\r' :: unescReturns cs
    else if c = '\\' ∧ d = 'n' then '\n' :: unescReturns cs
    else c :: unescReturns (d :: cs)

/-- `hasEscSeq cs = true` iff `cs` contains a backslash immediately
followed by `r` or `n` — exactly the strings on which `unescReturns`
can disagree with the identity before any escaping. -/
def hasEscSeq : List Char → Bool
  | [] => false
  | [_] => false
  | c :: d :: cs =>
    if c = '\\' ∧ (d = 'r' ∨ d = 'n') then true
    else hasEscSeq (d :: cs)

/-- Splitting a character list on a separator, modelling Go
`strings.Split` for a one-character separator (`to.Lines` splits the
file text into newline-separated records, per the spec). -/
def splitChar (sep : Char) : List Char → List (List Char)
  | [] => [[]]
  | c :: cs =>
    if c = sep then [] :: splitChar sep cs
    else
      match splitChar sep cs with
      | [] => [[c]]
      | l :: ls => (c :: l) :: ls

/-- `strings.SplitN(line, "=", 2)` as used by `Map.UnmarshalText`:
`some (k, v)` splits at the first `=` (so `v` may contain further `=`),
`none` when the line has no `=` (the line is then skipped). -/
def splitEq1 : List Char → Option (List Char × List Char)
  | [] => none
  | c :: cs =>
    if c = '=' then some ([], cs)
    else
      match splitEq1 cs with
      | none => none
      | some kv => some (c :: kv.1, kv.2)

/-- Go map assignment `m[k] = v` on the association-list model: replace
the value of an existing key in place, else append the new pair. -/
def upsert : List (String × String) → String → String → List (String × String)
  | [], k, v => [(k, v)]
  | kv :: rest, k, v =>
    if kv.1 = k then (kv.1, v) :: rest else kv :: upsert rest k v

/-- Go map lookup `m[k]`. -/
def lookup : List (String × String) → String → Option String
  | [], _ => none
  | kv :: rest, k => if kv.1 = k then some kv.2 else lookup rest k

/-- Go `delete(m, key)`. -/
def eraseKey : List (String × String) → String → List (String × String)
  | [], _ => []
  | kv :: rest, k =>
    if kv.1 = k then eraseKey rest k else kv :: eraseKey rest k

/-- All keys distinct (automatic for a Go map; an invariant of the
association-list model). -/
def keysNodup : List (String × String) → Bool
  | [] => true
  | kv :: rest => !(rest.any (fun kv2 => kv2.1 == kv.1)) && keysNodup rest

/-- A key that serializes safely: it contains no `=` (so parsing splits
at the `=` written by `MarshalText`) and no line feed (keys are written
verbatim, unescaped, so a line feed would break the line format). -/
def wfKey (k : String) : Bool :=
  decide ('=' ∉ k.data) && decide ('\n' ∉ k.data)

/-- All keys of the mapping serialize safely. -/
def wfKeys (M : List (String × String)) : Bool :=
  M.all (fun kv => wfKey kv.1)

/-- One line of `Map.UnmarshalText`'s loop: split on the first `=`; on
success assign `parts[0] ↦ UnEscReturns(parts[1])`, otherwise skip the
line. -/
def applyLine (M : List (String × String)) (line : List Char) :
    List (String × String) :=
  match splitEq1 line with
  | some kv => upsert M (String.mk kv.1) (String.mk (unescReturns kv.2))
  | none => M

/-- `Map.UnmarshalText` (the body of `Load`): split the text into lines
and process each; the existing entries are kept unless overwritten. -/
def unmarshalLines (M : List (String × String)) (txt : String) :
    List (String × String) :=
  (splitChar '\n' txt.data).foldl applyLine M

/-- `Map.MarshalText`: one `key=EscReturns(value)` line per entry, each
terminated by a line feed, keys verbatim, in iteration order. -/
def marshalList : List (String × String) → List Char
  | [] => []
  | kv :: rest =>
    kv.1.data ++ '=' :: (escReturns kv.2.data ++ '\n' :: marshalList rest)

/-- The keys assigned by parsing a text, in line order (used to state
merge semantics: entries whose key is not among these survive a load). -/
def parsedKeys (txt : String) : List String :=
  (splitChar '\n' txt.data).filterMap
    (fun l => (splitEq1 l).map (fun kv => String.mk kv.1))

/-- Error values returned by the store. `notFound` is modelled from the
spec: the `NotFound` error type of the `vars` package carries the
missing key (or, for `Match`, the pattern). `ioErr` stands for any
operating-system I/O failure (open/read/stat). -/
inductive Verr where
  | notFound (key : String)
  | ioErr
  deriving DecidableEq, Repr

/-- The backing file as the store observes it: `avail = false` means
`os.Stat` and `os.Open` both fail (e.g. the file was deleted);
otherwise the file has the given content and modification time. -/
structure Vfile where
  avail : Bool
  content : String
  mtime : Nat
  deriving DecidableEq, Repr

/-- The in-memory part of `Map`: the mapping and the `lastload`
timestamp recorded at the most recent successful load. -/
structure MapSt where
  M : List (String × String)
  lastload : Nat
  deriving DecidableEq, Repr

/-- `Map.fileHasChanged`: true when the file's modification time is
strictly after `lastload`; any stat error also yields true ("safe to
trigger a new load"). -/
def fileHasChanged (f : Vfile) (m : MapSt) : Bool :=
  if f.avail then decide (m.lastload < f.mtime) else true

/-- `Map.loadFile`: open and read the file (an error if unavailable),
record its modification time as `lastload`, then `Load` the text over
the existing entries. -/
def loadFile (f : Vfile) (m : MapSt) : Except Verr MapSt :=
  if f.avail then
    .ok { M := unmarshalLines m.M f.content, lastload := f.mtime }
  else
    .error .ioErr

/-- `Map.refresh`: reload from the file iff `fileHasChanged`. -/
def refresh (f : Vfile) (m : MapSt) : Except Verr MapSt :=
  if fileHasChanged f m then loadFile f m else .ok m

/-- The bare statement `m.refresh()` with its error discarded, as
written in `Get`, `Set` and `Match`: on a reload failure the receiver
is left as it was (`loadFile` fails before mutating anything). -/
def refreshQuiet (f : Vfile) (m : MapSt) : MapSt :=
  match refresh f m with
  | .ok m2 => m2
  | .error _ => m

/-- Modelled from the spec: `futil.Overwrite` atomically overwrites the
file with the given content (assumed reliable, per §6); the resulting
modification time is later than the previous one. -/
def overwriteFile (f : Vfile) (txt : String) : Vfile :=
  { avail := true, content := txt, mtime := f.mtime + 1 }

/-- Result of `Map.Get`: Go returns the pair (value, error); the store
state after the call is carried alongside. -/
structure GetOut where
  val : String
  err : Option Verr
  st : MapSt
  deriving DecidableEq, Repr

/-- `Map.Get`: `m.refresh()` with the error discarded, then a map
lookup; a missing key yields `("", NotFound{key})`. -/
def getOp (f : Vfile) (m : MapSt) (key : String) : GetOut :=
  let m2 := refreshQuiet f m
  match lookup m2.M key with
  | some v => ⟨v, none, m2⟩
  | none => ⟨"", some (.notFound key), m2⟩

/-- Result of `Map.Set`/`Map.Delete`: error, store state, file state,
and the number of disk writes performed by the call. -/
structure SetOut where
  err : Option Verr
  st : MapSt
  fs : Vfile
  writes : Nat
  deriving DecidableEq, Repr

/-- `Map.Set`: `m.refresh()` with the error discarded; if the key
already maps to exactly the value, return success without writing;
otherwise assign and `save` (marshal the whole mapping and overwrite
the file). -/
def setOp (f : Vfile) (m : MapSt) (key val : String) : SetOut :=
  let m1 := refreshQuiet f m
  if lookup m1.M key = some val then ⟨none, m1, f, 0⟩
  else
    let m2 : MapSt := { m1 with M := upsert m1.M key val }
    ⟨none, m2, overwriteFile f (String.mk (marshalList m2.M)), 1⟩

/-- `Map.Delete`: refresh, surfacing a refresh error to the caller;
then delete the key (a no-op when absent) and `save` the full
mapping. -/
def deleteOp (f : Vfile) (m : MapSt) (key : String) : SetOut :=
  match refresh f m with
  | .error e => ⟨some e, m, f, 0⟩
  | .ok m1 =>
    let m2 : MapSt := { m1 with M := eraseKey m1.M key }
    ⟨none, m2, overwriteFile f (String.mk (marshalList m2.M)), 1⟩

/-- Result of `Map.Clear`. -/
structure ClrOut where
  err : Option Verr
  st : MapSt
  fs : Vfile
  deriving DecidableEq, Repr

/-- `Map.Clear`: empty the in-memory mapping; no refresh, no save, the
file is untouched, and the returned error is always nil. -/
def clearOp (f : Vfile) (m : MapSt) : ClrOut :=
  ⟨none, { m with M := [] }, f⟩

/-- Result of `Map.Load`: `UnmarshalText` always returns nil. -/
structure LoadOut where
  err : Option Verr
  st : MapSt
  deriving DecidableEq, Repr

/-- `Map.Load`: feed the text to `UnmarshalText` over the existing
entries; the error is always nil. -/
def loadOp (m : MapSt) (txt : String) : LoadOut :=
  ⟨none, { m with M := unmarshalLines m.M txt }⟩

/-- Outcome of `Map.Match`: Go's `regexp.MustCompile` panics when the
pattern does not compile, so the call either crashes or returns the
pair (value, error). -/
inductive MatchRes where
  | crash
  | ret (val : String) (err : Option Verr)
  deriving DecidableEq, Repr

/-- The linear scan of `Map.Match`: value of the first entry whose key
matches. -/
def findMatch (rx : String → Bool) : List (String × String) → Option String
  | [] => none
  | kv :: rest => if rx kv.1 then some kv.2 else findMatch rx rest

/-- `Map.Match`: `m.refresh()` with the error discarded, then
`regexp.MustCompile(regx)` — the Go regexp engine is external, so
compilation is an explicit parameter mapping a pattern to `none` (does
not compile: `MustCompile` panics) or to a key predicate — then the
scan; no matching key yields `("", NotFound{regx})`. -/
def matchOp (compile : String → Option (String → Bool)) (f : Vfile)
    (m : MapSt) (pat : String) : MatchRes × MapSt :=
  let m2 := refreshQuiet f m
  (match compile pat with
    | none => .crash
    | some rx =>
      match findMatch rx m2.M with
      | some v => .ret v none
      | none => .ret "" (some (.notFound pat)),
    m2)

/-- A stand-in regular-expression engine for concrete instances: the
pattern `(` does not compile (as in Go), every other pattern matches
exactly the keys equal to it. -/
def exCompile (pat : String) : Option (String → Bool) :=
  if pat = "(" then none else some (fun k => k == pat)

/-! ### Lemmas about escaping -/

theorem unesc_cons_ne (c : Char) (X : List Char) (h : ¬ c = '\\') :
    unescReturns (c :: X) = c :: unescReturns X := by
  cases X with
  | nil => simp [unescReturns]
  | cons d ds => simp [unescReturns, h]

theorem hasEscSeq_cons {c : Char} {cs : List Char}
    (h : hasEscSeq (c :: cs) = false) : hasEscSeq cs = false := by
  cases cs with
  | nil => rfl
  | cons d ds =>
    rw [hasEscSeq] at h
    split at h
    · exact absurd h (by simp)
    · exact h

theorem esc_no_lf (cs : List Char) : '\n' ∉ escReturns cs := by
  induction cs with
  | nil => simp [escReturns]
  | cons c cs ih =>
    rw [escReturns]
    split
    · simp [ih]
    · split
      · simp [ih]
      · rename_i h1 h2
        simp only [List.mem_cons]
        rintro (rfl | hm)
        · exact h2 rfl
        · exact ih hm

/-- Unescaping undoes escaping on every string that does not already
contain one of the two escape sequences. -/
theorem unesc_esc : ∀ cs : List Char, hasEscSeq cs = false →
    unescReturns (escReturns cs) = cs
  | [], _ => rfl
  | c :: cs, h => by
    have h2 : hasEscSeq cs = false := hasEscSeq_cons h
    by_cases hr : c = '\r'
    · subst hr
      rw [escReturns, if_pos rfl]
      rw [show unescReturns ('\\' :: 'r' :: escReturns cs) =
        '\r' :: unescReturns (escReturns cs) by simp [unescReturns]]
      rw [unesc_esc cs h2]
    · by_cases hn : c = '\n'
      · subst hn
        rw [escReturns, if_neg (by decide), if_pos rfl]
        rw [show unescReturns ('\\' :: 'n' :: escReturns cs) =
          '\n' :: unescReturns (escReturns cs) by simp [unescReturns]]
        rw [unesc_esc cs h2]
      · rw [escReturns, if_neg hr, if_neg hn]
        by_cases hb : c = '\\'
        · subst hb
          cases cs with
          | nil => rfl
          | cons d ds =>
            have h3 : hasEscSeq ds = false := hasEscSeq_cons h2
            have hd : ¬ (d = 'r' ∨ d = 'n') := by
              intro hcon
              rw [hasEscSeq, if_pos ⟨rfl, hcon⟩] at h
              exact absurd h (by simp)
            by_cases hdr : d = '\r'
            · subst hdr
              rw [escReturns, if_pos rfl]
              rw [show unescReturns ('\\' :: '\\' :: 'r' :: escReturns ds) =
                '\\' :: '\r' :: unescReturns (escReturns ds) by
                  simp [unescReturns]]
              rw [unesc_esc ds h3]
            · by_cases hdn : d = '\n'
              · subst hdn
                rw [escReturns, if_neg (by decide), if_pos rfl]
                rw [show unescReturns ('\\' :: '\\' :: 'n' :: escReturns ds) =
                  '\\' :: '\n' :: unescReturns (escReturns ds) by
                    simp [unescReturns]]
                rw [unesc_esc ds h3]
              · rw [escReturns, if_neg hdr, if_neg hdn]
                have hnr : ¬ d = 'r' := fun e => hd (Or.inl e)
                have hnn : ¬ d = 'n' := fun e => hd (Or.inr e)
                rw [show unescReturns ('\\' :: d :: escReturns ds) =
                  '\\' :: unescReturns (d :: escReturns ds) by
                    simp [unescReturns, hnr, hnn]]
                rw [show (d :: escReturns ds) = escReturns (d :: ds) by
                  rw [escReturns, if_neg hdr, if_neg hdn]]
                rw [unesc_esc (d :: ds) h2]
        · rw [unesc_cons_ne c _ hb, unesc_esc cs h2]

/-! ### Lemmas about splitting -/

theorem splitChar_append (sep : Char) (a b : List Char) (h : sep ∉ a) :
    splitChar sep (a ++ sep :: b) = a :: splitChar sep b := by
  induction a with
  | nil => simp [splitChar]
  | cons c a2 ih =>
    have hc : ¬ c = sep := by
      rintro rfl; exact h (List.mem_cons_self c a2)
    have h2 : sep ∉ a2 := fun hm => h (List.mem_cons_of_mem c hm)
    rw [List.cons_append, splitChar, if_neg hc, ih h2]

theorem splitEq1_append (k v : List Char) (h : '=' ∉ k) :
    splitEq1 (k ++ '=' :: v) = some (k, v) := by
  induction k with
  | nil => simp [splitEq1]
  | cons c k2 ih =>
    have hc : ¬ c = '=' := by
      rintro rfl; exact h (List.mem_cons_self _ _)
    have h2 : '=' ∉ k2 := fun hm => h (List.mem_cons_of_mem c hm)
    rw [List.cons_append, splitEq1, if_neg hc, ih h2]

theorem splitEq1_none (l : List Char) (h : '=' ∉ l) : splitEq1 l = none := by
  induction l with
  | nil => rfl
  | cons c l2 ih =>
    have hc : ¬ c = '=' := by
      rintro rfl; exact h (List.mem_cons_self _ _)
    have h2 : '=' ∉ l2 := fun hm => h (List.mem_cons_of_mem c hm)
    rw [splitEq1, if_neg hc, ih h2]

/-! ### Lemmas about the association-list operations -/

theorem lookup_upsert_self (M : List (String × String)) (k v : String) :
    lookup (upsert M k v) k = some v := by
  induction M with
  | nil => simp [upsert, lookup]
  | cons kv rest ih =>
    rw [upsert]
    split
    · rename_i h; rw [lookup, if_pos h]
    · rename_i h; rw [lookup, if_neg h, ih]

theorem lookup_upsert_ne (M : List (String × String)) (k2 k v : String)
    (h : ¬ k2 = k) : lookup (upsert M k2 v) k = lookup M k := by
  induction M with
  | nil => simp [upsert, lookup, h]
  | cons kv rest ih =>
    rw [upsert]
    split
    · rename_i he
      have hne : ¬ kv.1 = k := by rw [he]; exact h
      simp [lookup, hne]
    · rw [lookup, lookup, ih]

theorem lookup_erase_self (M : List (String × String)) (k : String) :
    lookup (eraseKey M k) k = none := by
  induction M with
  | nil => rfl
  | cons kv rest ih =>
    rw [eraseKey]
    split
    · exact ih
    · rename_i h; rw [lookup, if_neg h, ih]

theorem wfKeys_cons {kv : String × String} {rest : List (String × String)} :
    wfKeys (kv :: rest) = (wfKey kv.1 && wfKeys rest) := by
  simp [wfKeys]

theorem wfKeys_upsert (M : List (String × String)) (k v : String)
    (hW : wfKeys M = true) (hk : wfKey k = true) :
    wfKeys (upsert M k v) = true := by
  induction M with
  | nil => simp [upsert, wfKeys, hk]
  | cons kv rest ih =>
    rw [wfKeys_cons] at hW
    simp only [Bool.and_eq_true] at hW
    rw [upsert]
    split
    · rw [wfKeys_cons]
      simp [hW.1, hW.2]
    · rw [wfKeys_cons]
      simp [hW.1, ih hW.2]

theorem any_upsert (rest : List (String × String)) (k v k1 : String)
    (h : ¬ k = k1) :
    (upsert rest k v).any (fun kv2 => kv2.1 == k1) =
      rest.any (fun kv2 => kv2.1 == k1) := by
  induction rest with
  | nil => simp [upsert, h]
  | cons kv2 r ih =>
    rw [upsert]
    split
    · simp [List.any_cons]
    · simp only [List.any_cons, ih]

theorem keysNodup_upsert (M : List (String × String)) (k v : String)
    (hN : keysNodup M = true) : keysNodup (upsert M k v) = true := by
  induction M with
  | nil => simp [upsert, keysNodup]
  | cons kv rest ih =>
    rw [keysNodup] at hN
    simp only [Bool.and_eq_true] at hN
    rw [upsert]
    split
    · rw [keysNodup]
      simp only [Bool.and_eq_true]
      exact hN
    · rename_i hne
      rw [keysNodup]
      simp only [Bool.and_eq_true]
      refine ⟨?_, ih hN.2⟩
      rw [any_upsert _ _ _ _ (fun e => hne e.symm)]
      exact hN.1

/-! ### Parsing a marshalled mapping -/

theorem applyLine_entry (M0 : List (String × String)) (k v : String)
    (hk : wfKey k = true) :
    applyLine M0 (k.data ++ '=' :: escReturns v.data) =
      upsert M0 k (String.mk (unescReturns (escReturns v.data))) := by
  simp only [wfKey, Bool.and_eq_true, decide_eq_true_eq] at hk
  rw [applyLine, splitEq1_append _ _ hk.1]

theorem splitChar_marshal (M : List (String × String))
    (hW : wfKeys M = true) :
    splitChar '\n' (marshalList M) =
      (M.map (fun kv => kv.1.data ++ '=' :: escReturns kv.2.data)) ++ [[]] := by
  induction M with
  | nil => rfl
  | cons kv rest ih =>
    rw [wfKeys_cons] at hW
    simp only [Bool.and_eq_true] at hW
    have hk := hW.1
    simp only [wfKey, Bool.and_eq_true, decide_eq_true_eq] at hk
    have hnl : '\n' ∉ kv.1.data ++ '=' :: escReturns kv.2.data := by
      intro hm
      rcases List.mem_append.mp hm with hm | hm
      · exact hk.2 hm
      · rcases List.mem_cons.mp hm with hm | hm
        · exact absurd hm (by decide)
        · exact esc_no_lf _ hm
    rw [marshalList,
      show kv.1.data ++ '=' :: (escReturns kv.2.data ++ '\n' :: marshalList rest)
        = (kv.1.data ++ '=' :: escReturns kv.2.data) ++ '\n' :: marshalList rest by
          simp,
      splitChar_append _ _ _ hnl, ih hW.2, List.map_cons, List.cons_append]

theorem foldl_applyLine_entries (M : List (String × String))
    (M0 : List (String × String)) (hW : wfKeys M = true) :
    ((M.map (fun kv : String × String =>
          kv.1.data ++ '=' :: escReturns kv.2.data)) ++
        [[]]).foldl applyLine M0 =
      M.foldl
        (fun acc kv =>
          upsert acc kv.1 (String.mk (unescReturns (escReturns kv.2.data))))
        M0 := by
  induction M generalizing M0 with
  | nil => rfl
  | cons kv rest ih =>
    rw [wfKeys_cons] at hW
    simp only [Bool.and_eq_true] at hW
    rw [List.map_cons, List.cons_append, List.foldl_cons, List.foldl_cons,
      applyLine_entry M0 kv.1 kv.2 hW.1]
    exact ih _ hW.2

theorem unmarshal_marshal (M M0 : List (String × String))
    (hW : wfKeys M = true) :
    unmarshalLines M0 (String.mk (marshalList M)) =
      M.foldl
        (fun acc kv =>
          upsert acc kv.1 (String.mk (unescReturns (escReturns kv.2.data))))
        M0 := by
  rw [unmarshalLines]
  show (splitChar '\n' (marshalList M)).foldl applyLine M0 = _
  rw [splitChar_marshal M hW, foldl_applyLine_entries M M0 hW]

/-! ### Looking up a key after re-parsing -/

theorem lookup_foldl_upsert_notmem (g : String → String)
    (M M0 : List (String × String)) (k : String)
    (h : ∀ kv ∈ M, ¬ kv.1 = k) :
    lookup (M.foldl (fun acc kv => upsert acc kv.1 (g kv.2)) M0) k =
      lookup M0 k := by
  induction M generalizing M0 with
  | nil => rfl
  | cons kv rest ih =>
    rw [List.foldl_cons,
      ih _ (fun kv2 hm => h kv2 (List.mem_cons_of_mem kv hm)),
      lookup_upsert_ne _ _ _ _ (h kv (List.mem_cons_self _ _))]

theorem lookup_foldl_upsert_mem (g : String → String) :
    ∀ (M M0 : List (String × String)) (k v : String),
      keysNodup M = true → lookup M k = some v →
      lookup (M.foldl (fun acc kv => upsert acc kv.1 (g kv.2)) M0) k =
        some (g v)
  | [], _, _, _, _, hv => absurd hv (by simp [lookup])
  | kv :: rest, M0, k, v, hN, hv => by
    rw [keysNodup, Bool.and_eq_true, Bool.not_eq_true'] at hN
    obtain ⟨hN1, hN2⟩ := hN
    have hrest : ∀ kv2 ∈ rest, ¬ kv2.1 = kv.1 := by
      intro kv2 hm e
      have h2 := List.any_eq_false.mp hN1 kv2 hm
      simp [e] at h2
    rw [List.foldl_cons]
    rw [lookup] at hv
    by_cases hk : kv.1 = k
    · rw [if_pos hk] at hv
      injection hv with hv
      subst hv
      rw [lookup_foldl_upsert_notmem _ _ _ _
        (fun kv2 hm e => hrest kv2 hm (e.trans hk.symm)), hk,
        lookup_upsert_self]
    · rw [if_neg hk] at hv
      exact lookup_foldl_upsert_mem g rest _ k v hN2 hv

/-- The value a well-formed key holds after the marshalled form of a
mapping containing it is parsed back (over any starting entries): the
stored value, unescaped after escaping. -/
theorem lookup_unmarshal_marshal (M M0 : List (String × String))
    (k v : String) (hW : wfKeys M = true) (hN : keysNodup M = true)
    (hkv : lookup M k = some v) (hv : hasEscSeq v.data = false) :
    lookup (unmarshalLines M0 (String.mk (marshalList M))) k = some v := by
  rw [unmarshal_marshal M M0 hW]
  refine Eq.trans
    (lookup_foldl_upsert_mem
      (fun x => String.mk (unescReturns (escReturns x.data))) M M0 k v hN hkv)
    ?_
  show some (String.mk (unescReturns (escReturns v.data))) = some v
  rw [unesc_esc v.data hv]

/-! ### Merge semantics of parsing -/

theorem lookup_foldl_applyLine (lines : List (List Char))
    (M0 : List (String × String)) (k v : String)
    (h0 : lookup M0 k = some v)
    (h : ∀ l ∈ lines, ∀ kv, splitEq1 l = some kv → ¬ String.mk kv.1 = k) :
    lookup (lines.foldl applyLine M0) k = some v := by
  induction lines generalizing M0 with
  | nil => exact h0
  | cons l rest ih =>
    rw [List.foldl_cons]
    refine ih _ ?_ (fun l2 hm => h l2 (List.mem_cons_of_mem l hm))
    rw [applyLine]
    cases hsp : splitEq1 l with
    | none => exact h0
    | some kv =>
      rw [lookup_upsert_ne _ _ _ _ (h l (List.mem_cons_self _ _) kv hsp)]
      exact h0

/-! ### Behaviour of refresh -/

theorem refresh_unchanged (f : Vfile) (m : MapSt)
    (h : fileHasChanged f m = false) : refresh f m = .ok m := by
  rw [refresh, h]
  rfl

theorem refreshQuiet_unchanged (f : Vfile) (m : MapSt)
    (h : fileHasChanged f m = false) : refreshQuiet f m = m := by
  rw [refreshQuiet, refresh_unchanged f m h]

theorem fileHasChanged_synced (f : Vfile) (m : MapSt)
    (hA : f.avail = true) (hT : m.lastload = f.mtime) :
    fileHasChanged f m = false := by
  rw [fileHasChanged, if_pos hA]
  simp [hT]

/-! ### The round trip through Set, the refresh inside Get, and a fresh
reload of the written file -/

/-- After `Set(k, v)` from a synced, well-formed state, the refresh that
the next operation performs (re-parsing the file just written, merged
over the in-memory entries) still maps `k` to `v`, and so does a fresh
parse of the file into an empty mapping. -/
theorem set_get_roundtrip (f : Vfile) (m : MapSt) (k v : String)
    (hA : f.avail = true) (hT : m.lastload = f.mtime)
    (hS : f.content = String.mk (marshalList m.M))
    (hW : wfKeys m.M = true) (hN : keysNodup m.M = true)
    (hk : wfKey k = true) (hv : hasEscSeq v.data = false) :
    (setOp f m k v).err = none ∧
    (getOp (setOp f m k v).fs (setOp f m k v).st k).val = v ∧
    (getOp (setOp f m k v).fs (setOp f m k v).st k).err = none ∧
    lookup (unmarshalLines [] (setOp f m k v).fs.content) k = some v := by
  have hfc : fileHasChanged f m = false := fileHasChanged_synced f m hA hT
  have hrq : refreshQuiet f m = m := refreshQuiet_unchanged f m hfc
  by_cases hLk : lookup m.M k = some v
  · have hset : setOp f m k v = ⟨none, m, f, 0⟩ := by
      rw [setOp]
      simp only [hrq, hLk, if_pos]
    rw [hset]
    refine ⟨rfl, ?_, ?_, ?_⟩
    · show (getOp f m k).val = v
      rw [getOp]
      simp only [hrq, hLk]
    · show (getOp f m k).err = none
      rw [getOp]
      simp only [hrq, hLk]
    · show lookup (unmarshalLines [] f.content) k = some v
      rw [hS]
      exact lookup_unmarshal_marshal m.M [] k v hW hN hLk hv
  · have hset : setOp f m k v =
        ⟨none, ⟨upsert m.M k v, m.lastload⟩,
          overwriteFile f (String.mk (marshalList (upsert m.M k v))), 1⟩ := by
      rw [setOp]
      simp only [hrq, hLk, if_neg, if_false]
    have hlk3 :
        lookup (unmarshalLines (upsert m.M k v)
          (String.mk (marshalList (upsert m.M k v)))) k = some v :=
      lookup_unmarshal_marshal _ _ k v (wfKeys_upsert _ _ _ hW hk)
        (keysNodup_upsert _ _ _ hN) (lookup_upsert_self _ _ _) hv
    have hlk0 :
        lookup (unmarshalLines []
          (String.mk (marshalList (upsert m.M k v)))) k = some v :=
      lookup_unmarshal_marshal _ _ k v (wfKeys_upsert _ _ _ hW hk)
        (keysNodup_upsert _ _ _ hN) (lookup_upsert_self _ _ _) hv
    have hfc2 : fileHasChanged
        (overwriteFile f (String.mk (marshalList (upsert m.M k v))))
        ⟨upsert m.M k v, m.lastload⟩ = true := by
      simp [fileHasChanged, overwriteFile, hT]
    have hrq2 : refreshQuiet
        (overwriteFile f (String.mk (marshalList (upsert m.M k v))))
        ⟨upsert m.M k v, m.lastload⟩ =
        ⟨unmarshalLines (upsert m.M k v)
          (String.mk (marshalList (upsert m.M k v))), f.mtime + 1⟩ := by
      rw [refreshQuiet, refresh, hfc2]
      rfl
    rw [hset]
    refine ⟨rfl, ?_, ?_, ?_⟩
    · show (getOp _ _ k).val = v
      rw [getOp]
      simp only [hrq2, hlk3]
    · show (getOp _ _ k).err = none
      rw [getOp]
      simp only [hrq2, hlk3]
    · exact hlk0

/-! ### The claims -/

/-- C1 (counterexample): the round trip fails as stated for arbitrary
values and keys. From an empty synced store, `Set("k", "\n")` with a
value consisting of the two characters backslash and `n` followed by
`Get("k")` returns the one-character line feed string, not the value
that was set (the refresh inside `Get` re-parses the file just
written); and after `Set` of the key `a`-linefeed-`b` (no `=` in the
key), re-loading the written file into an empty mapping no longer
contains that key at all. -/
theorem claimC1_counterexample :
    ((getOp (setOp ⟨true, "", 0⟩ ⟨[], 0⟩ "k" "\\n").fs
        (setOp ⟨true, "", 0⟩ ⟨[], 0⟩ "k" "\\n").st "k").val = "\n" ∧
      ¬ (getOp (setOp ⟨true, "", 0⟩ ⟨[], 0⟩ "k" "\\n").fs
        (setOp ⟨true, "", 0⟩ ⟨[], 0⟩ "k" "\\n").st "k").val = "\\n") ∧
    lookup (unmarshalLines []
        (setOp ⟨true, "", 0⟩ ⟨[], 0⟩ "a\nb" "c").fs.content) "a\nb" =
      none := by
  decide

/-- C1 (amended): for every synced well-formed store state (backing
file present, unchanged since the last load, equal to the serialization
of the distinct, well-formed in-memory keys), every key containing no
`=` and no line feed and every value containing no literal backslash-r
or backslash-n sequence: `Set(k, v)` then `Get(k)` returns exactly `v`
with no error, and after the in-memory mapping is discarded and the
written backing file is re-parsed into an empty mapping, `k` still maps
to exactly `v`. -/
theorem claimC1_roundtrip (f : Vfile) (m : MapSt) (k v : String)
    (hA : f.avail = true) (hT : m.lastload = f.mtime)
    (hS : f.content = String.mk (marshalList m.M))
    (hW : wfKeys m.M = true) (hN : keysNodup m.M = true)
    (hk : wfKey k = true) (hv : hasEscSeq v.data = false) :
    (setOp f m k v).err = none ∧
    (getOp (setOp f m k v).fs (setOp f m k v).st k).val = v ∧
    (getOp (setOp f m k v).fs (setOp f m k v).st k).err = none ∧
    lookup (unmarshalLines [] (setOp f m k v).fs.content) k = some v :=
  set_get_roundtrip f m k v hA hT hS hW hN hk hv

/-- C1 (witness): the amended round trip at the spec's own example, the
value `"line1\r\nline2"` (raw carriage return and line feed) set under
key `a` on an empty synced store. -/
theorem claimC1_witness :
    (setOp ⟨true, "", 0⟩ ⟨[], 0⟩ "a" "line1\r\nline2").err = none ∧
    (getOp (setOp ⟨true, "", 0⟩ ⟨[], 0⟩ "a" "line1\r\nline2").fs
      (setOp ⟨true, "", 0⟩ ⟨[], 0⟩ "a" "line1\r\nline2").st "a").val =
      "line1\r\nline2" ∧
    (getOp (setOp ⟨true, "", 0⟩ ⟨[], 0⟩ "a" "line1\r\nline2").fs
      (setOp ⟨true, "", 0⟩ ⟨[], 0⟩ "a" "line1\r\nline2").st "a").err =
      none ∧
    lookup (unmarshalLines []
        (setOp ⟨true, "", 0⟩ ⟨[], 0⟩ "a" "line1\r\nline2").fs.content)
      "a" = some "line1\r\nline2" :=
  claimC1_roundtrip ⟨true, "", 0⟩ ⟨[], 0⟩ "a" "line1\r\nline2" rfl rfl
    (by decide) (by decide) (by decide) (by decide) (by decide)

/-- C2: `Load` merges rather than replaces: any entry of the mapping
whose key is not assigned by a line of the parsed text keeps its old
value. -/
theorem claimC2_loadMerges (m : MapSt) (txt : String) (k v : String)
    (h0 : lookup m.M k = some v) (h : k ∉ parsedKeys txt) :
    lookup (loadOp m txt).st.M k = some v := by
  show lookup (unmarshalLines m.M txt) k = some v
  rw [unmarshalLines]
  refine lookup_foldl_applyLine _ _ _ _ h0 ?_
  intro l hl kv hsp e
  refine h ?_
  rw [parsedKeys]
  refine List.mem_filterMap.mpr ⟨l, hl, ?_⟩
  rw [hsp]
  show some (String.mk kv.1) = some k
  rw [e]

/-- C2 (witness): with an existing entry `a=1`, `Load("b=2")` leaves
both `a=1` and `b=2` present. -/
theorem claimC2_witness :
    lookup (loadOp ⟨[("a", "1")], 0⟩ "b=2").st.M "a" = some "1" ∧
    lookup (loadOp ⟨[("a", "1")], 0⟩ "b=2").st.M "b" = some "2" :=
  ⟨claimC2_loadMerges ⟨[("a", "1")], 0⟩ "b=2" "a" "1" (by decide)
      (by decide),
    by decide⟩

/-- C6: every line without an `=` is skipped by `Load`, which always
returns success; `Load("a=1\nmalformedline\nb=2")` on an empty store
yields exactly the entries `a=1` and `b=2` and no error. -/
theorem claimC6_malformedSkipped :
    (∀ (M : List (String × String)) (line : List Char),
      '=' ∉ line → applyLine M line = M) ∧
    (∀ (m : MapSt) (txt : String), (loadOp m txt).err = none) ∧
    loadOp ⟨[], 0⟩ "a=1\nmalformedline\nb=2" =
      ⟨none, ⟨[("a", "1"), ("b", "2")], 0⟩⟩ := by
  refine ⟨?_, ?_, by decide⟩
  · intro M line h
    rw [applyLine, splitEq1_none line h]
  · intro m txt
    rfl

/-- C6 (witness): a malformed line leaves the mapping unchanged. -/
theorem claimC6_witness :
    applyLine [("a", "1")] "malformedline".data = [("a", "1")] :=
  claimC6_malformedSkipped.1 [("a", "1")] "malformedline".data (by decide)

/-- C7: after the refresh, `Get` of an absent key returns the
`NotFound` error carrying the missing key and the zero-value string,
and `Get` of a present key returns its value with no error. -/
theorem claimC7_getNotFound (f : Vfile) (m : MapSt) (key : String) :
    (lookup (refreshQuiet f m).M key = none →
      getOp f m key = ⟨"", some (.notFound key), refreshQuiet f m⟩) ∧
    (∀ v, lookup (refreshQuiet f m).M key = some v →
      getOp f m key = ⟨v, none, refreshQuiet f m⟩) := by
  constructor
  · intro h
    rw [getOp]
    simp only [h]
  · intro v h
    rw [getOp]
    simp only [h]

/-- C7 (witness): `Get("missing")` on an empty synced store returns the
`NotFound` error carrying `"missing"`, not a zero-value success. -/
theorem claimC7_witness :
    getOp ⟨true, "", 0⟩ ⟨[], 0⟩ "missing" =
      ⟨"", some (.notFound "missing"), ⟨[], 0⟩⟩ :=
  (claimC7_getNotFound ⟨true, "", 0⟩ ⟨[], 0⟩ "missing").1 (by decide)

/-- C8: `Delete` is idempotent: when the refresh succeeds, it returns
success whether or not the key was present, the key is absent from the
resulting mapping, and the full resulting mapping is persisted to the
backing file by exactly one write. -/
theorem claimC8_deleteIdempotent (f : Vfile) (m : MapSt) (key : String)
    (m1 : MapSt) (h : refresh f m = .ok m1) :
    (deleteOp f m key).err = none ∧
    (deleteOp f m key).st.M = eraseKey m1.M key ∧
    lookup (deleteOp f m key).st.M key = none ∧
    (deleteOp f m key).fs.content =
      String.mk (marshalList (deleteOp f m key).st.M) ∧
    (deleteOp f m key).writes = 1 := by
  have hd : deleteOp f m key =
      ⟨none, ⟨eraseKey m1.M key, m1.lastload⟩,
        overwriteFile f (String.mk (marshalList (eraseKey m1.M key))),
        1⟩ := by
    simp only [deleteOp, h]
  rw [hd]
  exact ⟨rfl, rfl, lookup_erase_self _ _, rfl, rfl⟩

/-- C8 (witness): deleting an absent key from an empty synced store
succeeds, persists, and reports no error. -/
theorem claimC8_witness :
    (deleteOp ⟨true, "", 0⟩ ⟨[], 0⟩ "missing").err = none ∧
    (deleteOp ⟨true, "", 0⟩ ⟨[], 0⟩ "missing").st.M =
      eraseKey [] "missing" ∧
    lookup (deleteOp ⟨true, "", 0⟩ ⟨[], 0⟩ "missing").st.M "missing" =
      none ∧
    (deleteOp ⟨true, "", 0⟩ ⟨[], 0⟩ "missing").fs.content =
      String.mk
        (marshalList (deleteOp ⟨true, "", 0⟩ ⟨[], 0⟩ "missing").st.M) ∧
    (deleteOp ⟨true, "", 0⟩ ⟨[], 0⟩ "missing").writes = 1 :=
  claimC8_deleteIdempotent ⟨true, "", 0⟩ ⟨[], 0⟩ "missing" ⟨[], 0⟩ rfl

/-- C9: `Clear` empties the in-memory mapping, always returns success,
and does not touch disk: the backing file is exactly what it was. -/
theorem claimC9_clear (f : Vfile) (m : MapSt) :
    (clearOp f m).err = none ∧ (clearOp f m).st.M = [] ∧
    (clearOp f m).fs = f :=
  ⟨rfl, rfl, rfl⟩

/-- C10: `Set` does not validate its key: `Set("a=b", "c")` on an empty
synced store succeeds, the key is written verbatim (the file reads
`a=b=c` plus line feed), and a reload of that text parses at the first
`=`, yielding the entry `a ↦ b=c` while the original key `a=b` is
absent. -/
theorem claimC10_noKeyValidation :
    (setOp ⟨true, "", 0⟩ ⟨[], 0⟩ "a=b" "c").err = none ∧
    (setOp ⟨true, "", 0⟩ ⟨[], 0⟩ "a=b" "c").fs.content = "a=b=c\n" ∧
    lookup (unmarshalLines []
        (setOp ⟨true, "", 0⟩ ⟨[], 0⟩ "a=b" "c").fs.content) "a" =
      some "b=c" ∧
    lookup (unmarshalLines []
        (setOp ⟨true, "", 0⟩ ⟨[], 0⟩ "a=b" "c").fs.content) "a=b" =
      none := by
  decide

/-- `Set` from an unchanged state when the key already holds the value:
success, no state change, no disk write. -/
theorem setOp_suppressed (f : Vfile) (m : MapSt) (k v : String)
    (hfc : fileHasChanged f m = false) (hLk : lookup m.M k = some v) :
    setOp f m k v = ⟨none, m, f, 0⟩ := by
  rw [setOp]
  simp only [refreshQuiet_unchanged f m hfc, hLk, if_pos]

/-- `Set` from an unchanged state when the key does not already hold
the value: assign and write once. -/
theorem setOp_write (f : Vfile) (m : MapSt) (k v : String)
    (hfc : fileHasChanged f m = false) (hLk : ¬ lookup m.M k = some v) :
    setOp f m k v =
      ⟨none, ⟨upsert m.M k v, m.lastload⟩,
        overwriteFile f (String.mk (marshalList (upsert m.M k v))), 1⟩ := by
  rw [setOp]
  simp only [refreshQuiet_unchanged f m hfc, hLk, if_neg, if_false]

/-- C3 (counterexample): with the backing file unavailable and the
entry `a=1` still in memory, the reload attempted by `Get`'s refresh
fails, yet `Get("a")` returns `("1", nil)` — the reload failure is not
surfaced to the caller. -/
theorem claimC3_counterexample :
    refresh ⟨false, "", 0⟩ ⟨[("a", "1")], 0⟩ = .error .ioErr ∧
    getOp ⟨false, "", 0⟩ ⟨[("a", "1")], 0⟩ "a" =
      ⟨"1", none, ⟨[("a", "1")], 0⟩⟩ :=
  ⟨rfl, by decide⟩

/-- C3 (amended): the staleness check runs before every `Get`, `Set`,
`Match`, and `Delete`; when the backing file cannot be stat'ed the
store treats the file as changed and the attempted reload fails; that
reload failure is surfaced as an error only by `Delete` — `Get`, `Set`
and `Match` discard it and operate on the last-loaded in-memory
mapping. -/
theorem claimC3_refreshPolicy :
    (∀ (f : Vfile) (m : MapSt), f.avail = false →
      fileHasChanged f m = true ∧ refresh f m = .error .ioErr) ∧
    (∀ (f : Vfile) (m : MapSt) (key : String) (e : Verr),
      refresh f m = .error e → deleteOp f m key = ⟨some e, m, f, 0⟩) ∧
    (∀ (f : Vfile) (m : MapSt) (key v : String) (e : Verr),
      refresh f m = .error e → lookup m.M key = some v →
      getOp f m key = ⟨v, none, m⟩) ∧
    (∀ (f : Vfile) (m : MapSt) (key : String) (e : Verr),
      refresh f m = .error e → lookup m.M key = none →
      getOp f m key = ⟨"", some (.notFound key), m⟩) ∧
    (∀ (f : Vfile) (m : MapSt) (key v : String),
      (setOp f m key v).err = none) ∧
    (∀ (compile : String → Option (String → Bool)) (f : Vfile)
      (m : MapSt) (pat : String) (e : Verr), refresh f m = .error e →
      (matchOp compile f m pat).2 = m) := by
  refine ⟨?_, ?_, ?_, ?_, ?_, ?_⟩
  · intro f m h
    constructor
    · simp [fileHasChanged, h]
    · simp [refresh, fileHasChanged, loadFile, h]
  · intro f m key e h
    simp only [deleteOp, h]
  · intro f m key v e h hl
    have hq : refreshQuiet f m = m := by rw [refreshQuiet, h]
    rw [getOp]
    simp only [hq, hl]
  · intro f m key e h hl
    have hq : refreshQuiet f m = m := by rw [refreshQuiet, h]
    rw [getOp]
    simp only [hq, hl]
  · intro f m key v
    rw [setOp]
    split <;> rfl
  · intro compile f m pat e h
    have hq : refreshQuiet f m = m := by rw [refreshQuiet, h]
    rw [matchOp]
    exact hq

/-- C3 (witness): a deleted backing file with a nonempty in-memory
mapping: the file counts as changed, the reload fails, `Delete`
surfaces the failure, `Get` of a present key answers from the stale
mapping with no error, and `Set` reports no error either. -/
theorem claimC3_witness :
    (fileHasChanged ⟨false, "", 0⟩ ⟨[("a", "1")], 0⟩ = true ∧
      refresh ⟨false, "", 0⟩ ⟨[("a", "1")], 0⟩ = .error .ioErr) ∧
    deleteOp ⟨false, "", 0⟩ ⟨[("a", "1")], 0⟩ "a" =
      ⟨some .ioErr, ⟨[("a", "1")], 0⟩, ⟨false, "", 0⟩, 0⟩ ∧
    getOp ⟨false, "", 0⟩ ⟨[("a", "1")], 0⟩ "a" =
      ⟨"1", none, ⟨[("a", "1")], 0⟩⟩ ∧
    (setOp ⟨false, "", 0⟩ ⟨[("a", "1")], 0⟩ "a" "2").err = none :=
  ⟨claimC3_refreshPolicy.1 ⟨false, "", 0⟩ ⟨[("a", "1")], 0⟩ rfl,
    claimC3_refreshPolicy.2.1 ⟨false, "", 0⟩ ⟨[("a", "1")], 0⟩ "a"
      .ioErr rfl,
    claimC3_refreshPolicy.2.2.1 ⟨false, "", 0⟩ ⟨[("a", "1")], 0⟩ "a" "1"
      .ioErr rfl (by decide),
    claimC3_refreshPolicy.2.2.2.2.1 ⟨false, "", 0⟩ ⟨[("a", "1")], 0⟩
      "a" "2"⟩

/-- C4: `Match` on a pattern that does not compile crashes
(`regexp.MustCompile` panics) instead of returning an error value;
`Match` on a compiling pattern matched by no key returns the `NotFound`
error carrying the pattern. -/
theorem claimC4_matchErrors :
    (∀ (compile : String → Option (String → Bool)) (f : Vfile)
      (m : MapSt) (pat : String), compile pat = none →
      (matchOp compile f m pat).1 = .crash) ∧
    (∀ (compile : String → Option (String → Bool)) (f : Vfile)
      (m : MapSt) (pat : String) (rx : String → Bool),
      compile pat = some rx →
      findMatch rx (refreshQuiet f m).M = none →
      (matchOp compile f m pat).1 = .ret "" (some (.notFound pat))) := by
  constructor
  · intro compile f m pat h
    rw [matchOp]
    simp only [h]
  · intro compile f m pat rx h hfm
    rw [matchOp]
    simp only [h, hfm]

/-- C4 (witness): with the stand-in engine, `Match("(")` on an empty
synced store crashes, and `Match("nope")` returns the `NotFound` error
carrying the pattern. -/
theorem claimC4_witness :
    (matchOp exCompile ⟨true, "", 0⟩ ⟨[], 0⟩ "(").1 = .crash ∧
    (matchOp exCompile ⟨true, "", 0⟩ ⟨[], 0⟩ "nope").1 =
      .ret "" (some (.notFound "nope")) :=
  ⟨claimC4_matchErrors.1 exCompile ⟨true, "", 0⟩ ⟨[], 0⟩ "(" rfl,
    claimC4_matchErrors.2 exCompile ⟨true, "", 0⟩ ⟨[], 0⟩ "nope"
      (fun k => k == "nope") rfl rfl⟩

/-- C5 (counterexample): two `Set(k, v)` calls with the same `v` do not
always perform exactly one disk write. When `k` already caches `v`
(the very situation of the claim's first half) both calls are
suppressed: zero writes. And for the value backslash-`n`, whose parsed
form differs from it, the second call re-parses the file its first call
wrote, sees a different cached value, and writes again: two writes. -/
theorem claimC5_counterexample :
    ((setOp ⟨true, "a=1\n", 5⟩ ⟨[("a", "1")], 5⟩ "a" "1").writes +
        (setOp (setOp ⟨true, "a=1\n", 5⟩ ⟨[("a", "1")], 5⟩ "a" "1").fs
          (setOp ⟨true, "a=1\n", 5⟩ ⟨[("a", "1")], 5⟩ "a" "1").st
          "a" "1").writes = 0 ∧
      ¬ ((setOp ⟨true, "a=1\n", 5⟩ ⟨[("a", "1")], 5⟩ "a" "1").writes +
        (setOp (setOp ⟨true, "a=1\n", 5⟩ ⟨[("a", "1")], 5⟩ "a" "1").fs
          (setOp ⟨true, "a=1\n", 5⟩ ⟨[("a", "1")], 5⟩ "a" "1").st
          "a" "1").writes = 1)) ∧
    ((setOp ⟨true, "", 0⟩ ⟨[], 0⟩ "k" "\\n").writes +
        (setOp (setOp ⟨true, "", 0⟩ ⟨[], 0⟩ "k" "\\n").fs
          (setOp ⟨true, "", 0⟩ ⟨[], 0⟩ "k" "\\n").st
          "k" "\\n").writes = 2 ∧
      ¬ ((setOp ⟨true, "", 0⟩ ⟨[], 0⟩ "k" "\\n").writes +
        (setOp (setOp ⟨true, "", 0⟩ ⟨[], 0⟩ "k" "\\n").fs
          (setOp ⟨true, "", 0⟩ ⟨[], 0⟩ "k" "\\n").st
          "k" "\\n").writes = 1)) := by
  decide

/-- C5 (amended): if the key's cached value is already exactly the
value and the file is unchanged, `Set` returns success with no disk
write, leaving file content and modification time untouched; and from
a well-formed unchanged state whose cached value for the key differs,
two `Set(k, v)` calls with the same escape-clean `v` perform exactly
one disk write (the first writes, the second is suppressed). -/
theorem claimC5_writeSuppression :
    (∀ (f : Vfile) (m : MapSt) (k v : String),
      fileHasChanged f m = false → lookup m.M k = some v →
      setOp f m k v = ⟨none, m, f, 0⟩) ∧
    (∀ (f : Vfile) (m : MapSt) (k v : String),
      f.avail = true → m.lastload = f.mtime →
      wfKeys m.M = true → keysNodup m.M = true →
      wfKey k = true → hasEscSeq v.data = false →
      ¬ lookup m.M k = some v →
      (setOp f m k v).writes +
        (setOp (setOp f m k v).fs (setOp f m k v).st k v).writes = 1) := by
  constructor
  · intro f m k v hfc hLk
    exact setOp_suppressed f m k v hfc hLk
  · intro f m k v hA hT hW hN hk hv hLk
    have hfc : fileHasChanged f m = false := fileHasChanged_synced f m hA hT
    have hset := setOp_write f m k v hfc hLk
    rw [hset]
    have hlk3 :
        lookup (unmarshalLines (upsert m.M k v)
          (String.mk (marshalList (upsert m.M k v)))) k = some v :=
      lookup_unmarshal_marshal _ _ k v (wfKeys_upsert _ _ _ hW hk)
        (keysNodup_upsert _ _ _ hN) (lookup_upsert_self _ _ _) hv
    have hfc2 : fileHasChanged
        (overwriteFile f (String.mk (marshalList (upsert m.M k v))))
        ⟨upsert m.M k v, m.lastload⟩ = true := by
      simp [fileHasChanged, overwriteFile, hT]
    have hrq2 : refreshQuiet
        (overwriteFile f (String.mk (marshalList (upsert m.M k v))))
        ⟨upsert m.M k v, m.lastload⟩ =
        ⟨unmarshalLines (upsert m.M k v)
          (String.mk (marshalList (upsert m.M k v))), f.mtime + 1⟩ := by
      rw [refreshQuiet, refresh, hfc2]
      rfl
    have hsup : setOp
        (overwriteFile f (String.mk (marshalList (upsert m.M k v))))
        ⟨upsert m.M k v, m.lastload⟩ k v =
        ⟨none, ⟨unmarshalLines (upsert m.M k v)
            (String.mk (marshalList (upsert m.M k v))), f.mtime + 1⟩,
          overwriteFile f (String.mk (marshalList (upsert m.M k v))),
          0⟩ := by
      rw [setOp]
      simp only [hrq2, hlk3, if_pos]
    rw [hsup]
    rfl

/-- C5 (witness): the amended statement at concrete states: a
suppressed `Set("a", "1")` on a store already caching `a=1`, and two
`Set("a", "1")` calls from an empty synced store performing one write
in total. -/
theorem claimC5_witness :
    setOp ⟨true, "a=1\n", 5⟩ ⟨[("a", "1")], 5⟩ "a" "1" =
      ⟨none, ⟨[("a", "1")], 5⟩, ⟨true, "a=1\n", 5⟩, 0⟩ ∧
    (setOp ⟨true, "", 0⟩ ⟨[], 0⟩ "a" "1").writes +
      (setOp (setOp ⟨true, "", 0⟩ ⟨[], 0⟩ "a" "1").fs
        (setOp ⟨true, "", 0⟩ ⟨[], 0⟩ "a" "1").st "a" "1").writes = 1 :=
  ⟨claimC5_writeSuppression.1 ⟨true, "a=1\n", 5⟩ ⟨[("a", "1")], 5⟩
      "a" "1" (by decide) (by decide),
    claimC5_writeSuppression.2 ⟨true, "", 0⟩ ⟨[], 0⟩ "a" "1" rfl rfl
      (by decide) (by decide) (by decide) (by decide) (by decide)⟩

end Vars
